import Mathlib

/-!
Shallow embedding of `src/hoden_data_analyst/ohm_law_analyzer_jp.py`.

Strings are modelled as `List Char`, CSV cells as an inductive `Cell`
(string / numeric / missing), and the floating point values of the
script as rationals.  Each definition carries a comment pointing to the
Python source lines it embeds.
-/

set_option maxHeartbeats 1000000

/-- ASCII decimal digit test, the model of the regex class d used by the
script patterns (filenames in this repository are ASCII). -/
def isDigitC (c : Char) : Bool := 48 ≤ c.toNat && c.toNat ≤ 57

/-- Model of Python `int` applied to a captured digit string
(`ohm_law_analyzer_jp.py` line 18): base-ten value of a digit list. -/
def digitsToNat (ds : List Char) : Nat :=
  ds.foldl (fun a c => a * 10 + (c.toNat - 48)) 0

/-- Model of `os.path.basename` (line 12) for POSIX paths: the part of
the path after the last slash. -/
def basename (s : List Char) : List Char :=
  (s.reverse.takeWhile (fun c => c ≠ '/')).reverse

/-- Attempt to match the regex `(\d+)([kM])ohm` (line 83) at the head of
the string: a maximal nonempty digit run, one unit character `k` or `M`,
then the literal `ohm`.  Backtracking the greedy digit run cannot help,
because a shortened run puts a digit where the unit character is
required, so matching only the maximal run is faithful to `re.search`
semantics at this position. -/
def matchOhmAt (s : List Char) : Option (List Char × Char) :=
  let ds := s.takeWhile isDigitC
  if ds.isEmpty then none
  else
    match s.drop ds.length with
    | c :: rest =>
      if (c = 'k' ∨ c = 'M') ∧ rest.take 3 = ['o', 'h', 'm'] then some (ds, c)
      else none
    | [] => none

/-- Model of `re.search` with pattern `(\d+)([kM])ohm`: try each start
position left to right, returning the captured digit run and unit
character of the leftmost match. -/
def searchOhm : List Char → Option (List Char × Char)
  | [] => none
  | c :: cs =>
    match matchOhmAt (c :: cs) with
    | some r => some r
    | none => searchOhm cs

/-- Attempt to match the regex `(\d+)Pa` (line 74) at the head of the
string: a maximal nonempty digit run followed by the literal `Pa`. -/
def matchPaAt (s : List Char) : Option (List Char) :=
  let ds := s.takeWhile isDigitC
  if ds.isEmpty then none
  else if (s.drop ds.length).take 2 = ['P', 'a'] then some ds
  else none

/-- Model of `re.search` with pattern `(\d+)Pa`. -/
def searchPa : List Char → Option (List Char)
  | [] => none
  | c :: cs =>
    match matchPaAt (c :: cs) with
    | some r => some r
    | none => searchPa cs

/-- The two regex patterns the script passes to
`parse_value_from_filename` (lines 74 and 83). -/
inductive Pat
  | ohm
  | pa
deriving DecidableEq, Repr

/-- Dispatch of `re.search(pattern, basename)` over the two patterns in
use.  The second component models `match.group(2)`: present for the ohm
pattern (two capture groups), absent for the Pa pattern (one group). -/
def reSearch : Pat → List Char → Option (List Char × Option Char)
  | Pat.ohm, s => (searchOhm s).map (fun p => (p.1, some p.2))
  | Pat.pa, s => (searchPa s).map (fun ds => (ds, none))

/-- The unit-multiplier mapping passed at line 83:
`{'k': 1000, 'M': 1000000}`. -/
def kohmMap : List (Char × Nat) := [('k', 1000), ('M', 1000000)]

/-- Embedding of `parse_value_from_filename` (lines 8-25): search the
basename with the given pattern; on no match return `none`; otherwise
convert the first capture group with `int`, and multiply by the unit
factor when a second capture group exists and is a key of `unit_map`
(line 21), else return the bare value. -/
def parse_value_from_filename (filename : List Char) (pattern : Pat)
    (unit_map : List (Char × Nat)) : Option Nat :=
  match reSearch pattern (basename filename) with
  | none => none
  | some (ds, g2) =>
    match g2 with
    | some u =>
      match unit_map.lookup u with
      | some m => some (digitsToNat ds * m)
      | none => some (digitsToNat ds)
    | none => some (digitsToNat ds)

/-- One cell of the data frame.  `pd.read_csv(..., dtype=str)` (line 94)
yields string cells, with missing entries read as NaN; after the
`pd.to_numeric` conversion (lines 105-106) the two voltage columns hold
numbers or NaN.  Floats are modelled as rationals. -/
inductive Cell
  | str : List Char → Cell
  | num : ℚ → Cell
  | nan : Cell
deriving DecidableEq, Repr

/-- Read a cell of a row, out-of-range reads giving the frame padding
value NaN (pandas pads short CSV rows with NaN up to the table width). -/
def getCell (r : List Cell) (i : Nat) : Cell := (r.get? i).getD Cell.nan

/-- Whether the cell holds a (finite) number. -/
def Cell.isNum : Cell → Bool
  | Cell.num _ => true
  | _ => false

/-- Numeric content of a cell, defaulting to zero. -/
def Cell.numVal : Cell → ℚ
  | Cell.num q => q
  | _ => 0

/-- Decimal-string parser modelling the accepting forms of
`pd.to_numeric` on these logs: optional sign, then digits with an
optional fractional part (exponent forms are omitted; the claims under
study do not depend on them, only on parse-or-drop behaviour). -/
def parseUnsignedRat (cs : List Char) : Option ℚ :=
  let ip := cs.takeWhile (fun c => c ≠ '.')
  match cs.drop ip.length with
  | [] =>
    if ip ≠ [] ∧ ip.all isDigitC then some ((digitsToNat ip : ℚ)) else none
  | _ :: fp =>
    if (ip.all isDigitC ∧ fp.all isDigitC) ∧ (ip ≠ [] ∨ fp ≠ []) ∧ fp.all (fun c => c ≠ '.')
    then some ((digitsToNat ip : ℚ) + (digitsToNat fp : ℚ) / (10 : ℚ) ^ fp.length)
    else none

/-- Signed decimal-string parser (model of `float` acceptance inside
`pd.to_numeric`). -/
def parseRatStr (cs : List Char) : Option ℚ :=
  match cs with
  | '-' :: rest => (parseUnsignedRat rest).map Neg.neg
  | '+' :: rest => parseUnsignedRat rest
  | _ => parseUnsignedRat cs

/-- Model of pd.to_numeric with coerce errors on one cell (lines 105-106):
a string cell becomes its numeric value, or NaN when coercion fails. -/
def convCell : Cell → Cell
  | Cell.str s =>
    match parseRatStr s with
    | some q => Cell.num q
    | none => Cell.nan
  | Cell.num q => Cell.num q
  | Cell.nan => Cell.nan

/-- The shape `dd:dd:dd` of the timestamp regex at line 99
(`^\d{2}:\d{2}:\d{2}$`, anchored at both ends by `str.match` plus the
trailing dollar): exactly eight characters, digit pairs separated by
colons.  The regex checks the shape only; it does not bound the ranges
of the fields. -/
def timeShape : List Char → Bool
  | [h1, h2, c1, m1, m2, c2, s1, s2] =>
    isDigitC h1 && isDigitC h2 && c1 = ':' && isDigitC m1 && isDigitC m2 &&
      c2 = ':' && isDigitC s1 && isDigitC s2
  | _ => false

/-- Timestamp test of str.match with na=False on one cell (line 101): NaN cells
count as non-matching. -/
def cellIsTime : Cell → Bool
  | Cell.str s => timeShape s
  | _ => false

/-- Number of columns of the frame built by `pd.read_csv` at line 94:
the maximal row width of the file. -/
def tableWidth (rows : List (List Cell)) : Nat :=
  (rows.map List.length).foldr max 0

/-- Pad one row with NaN cells up to the frame width, modelling the
rectangular frame `pd.read_csv` produces from ragged CSV rows. -/
def padTo (w : Nat) (r : List Cell) : List Cell :=
  r ++ List.replicate (w - r.length) Cell.nan

/-- Lines 105-106: replace columns 1 and 5 of a row by their coerced
numeric values (`COL_V_CH1 = 1`, `COL_V_CH2 = 5`, lines 95-96). -/
def convRow (r : List Cell) : List Cell :=
  let r1 := r.set 1 (convCell (getCell r 1))
  r1.set 5 (convCell (getCell r1 5))

/-- Lines 94-109, the load-and-clean pipeline on the in-memory table:
build the rectangular frame, keep rows whose first field has the
timestamp shape (line 101), coerce the two voltage columns
(lines 105-106), then drop rows with NaN in either voltage column
(line 109). -/
def cleanTable (rows : List (List Cell)) : List (List Cell) :=
  let t := rows.map (padTo (tableWidth rows))
  let kept := t.filter (fun r => cellIsTime (getCell r 0))
  let conv := kept.map convRow
  conv.filter (fun r => (getCell r 1).isNum && (getCell r 5).isNum)

/-- Lines 112-115, the current correction on one pair of voltages:
`current_ch2 = v_ch2 / resistance_ch2`, `current_ch1 = v_ch1 / 10_000_000`
(the 10 MOhm reference resistance is the fixed literal at line 113, not a
parameter), `final_current = current_ch2 - current_ch1`. -/
def finalCurrent (resistance_ch2 : Nat) (v1 v5 : ℚ) : ℚ :=
  v5 / (resistance_ch2 : ℚ) - v1 / 10000000

/-- The corrected current of one cleaned (already coerced) row. -/
def rowCurrent (resistance_ch2 : Nat) (r : List Cell) : ℚ :=
  finalCurrent resistance_ch2 (getCell r 1).numVal (getCell r 5).numVal

/-- Lines 118-119: the rows of the per-file output table
`df_to_save` — each cleaned row with the `final_current_A` value
appended as one extra column.  `to_csv(..., header=False, index=False)`
at line 121 writes exactly these rows: no header row, no index column. -/
def outputRows (resistance_ch2 : Nat) (rows : List (List Cell)) : List (List Cell) :=
  (cleanTable rows).map (fun r => r ++ [Cell.num (rowCurrent resistance_ch2 r)])

/-- One row of the aggregation frame built at lines 125-130:
voltage_ch1_V, final_current_A, resistance_ohm, pressure_Pa. -/
structure ProcessedRow where
  v1 : ℚ
  cur : ℚ
  res : Nat
  pres : Nat
deriving DecidableEq, Repr

/-- Lines 125-130 applied to one cleaned row. -/
def mkProcessed (resistance_ch2 pressure : Nat) (r : List Cell) : ProcessedRow :=
  { v1 := (getCell r 1).numVal
  , cur := rowCurrent resistance_ch2 r
  , res := resistance_ch2
  , pres := pressure }

/-- The group keys of `final_df.groupby(pressure_Pa)` (line 145): the
distinct pressure values of the concatenated table, in the ascending
order pandas groupby iterates them. -/
def pressureKeys (t : List ProcessedRow) : List Nat :=
  ((t.map ProcessedRow.pres).dedup).insertionSort (fun a b => a ≤ b)

/-- The rows of one pressure group (line 147). -/
def groupRows (p : Nat) (t : List ProcessedRow) : List ProcessedRow :=
  t.filter (fun r => r.pres == p)

/-- Line 151: the two-column projection written to
`summary_iv_<pressure>Pa.csv`. -/
def summaryTable (p : Nat) (t : List ProcessedRow) : List (ℚ × ℚ) :=
  (groupRows p t).map (fun r => (r.v1, r.cur))

/-- Name of the plot file (lines 161-166), chosen by whether a target
pressure is configured. -/
def plotName : Option Nat → List Char
  | some t => ("current_voltage_characteristics_plot_" ++ toString t ++ "Pa.png").toList
  | none => "current_voltage_characteristics_plot_final.png".toList

/-- The write effects of the aggregation-and-plot phase. -/
structure PhaseResult where
  summaries : List (Nat × List (ℚ × ℚ))
  plotFile : List Char
deriving DecidableEq, Repr

/-- Lines 136-190 after the per-file loop: if the collected list
`all_processed_data` of per-file tables is EMPTY (the falsiness test at
line 136 is on the list of tables, not on the row count), print a
diagnostic and return with no writes (`none`); otherwise concatenate
(line 141), write one summary per group key (lines 147-152) and save
the plot (line 189). -/
def aggregatePhase (target : Option Nat) (tables : List (List ProcessedRow)) :
    Option PhaseResult :=
  if tables.isEmpty then none
  else
    let finalT := tables.flatten
    some { summaries := (pressureKeys finalT).map (fun p => (p, summaryTable p finalT))
         , plotFile := plotName target }

/-- Fuel-driven worker for `pyReplace`; the fuel only forces structural
termination and is always started at the string length, which one
character consumed per step can never exhaust. -/
def pyReplaceF (pat rep : List Char) : Nat → List Char → List Char
  | _, [] => []
  | 0, s => s
  | fuel + 1, c :: cs =>
    if pat ≠ [] ∧ pat.isPrefixOf (c :: cs) then
      rep ++ pyReplaceF pat rep fuel (cs.drop (pat.length - 1))
    else
      c :: pyReplaceF pat rep fuel cs

/-- Model of the Python `str.replace(pat, rep)` call at line 120: replace
every non-overlapping occurrence of `pat`, scanning left to right. -/
def pyReplace (pat rep s : List Char) : List Char :=
  pyReplaceF pat rep s.length s

/-- The literal source-name tag at line 120. -/
def hodenTag : List Char := "_hoden.csv".toList

/-- The literal output-name tag at line 120. -/
def processedTag : List Char := "_processed.csv".toList

/-- Modelled from the spec words of the per-file-output contract (the
code itself uses replace-all): substitute the FIXED SUFFIX
`_hoden.csv` by `_processed.csv`, used only to compare against the
the replace-all behaviour of `pyReplace` in the code. -/
def suffixSubstitute (s : List Char) : List Char :=
  if hodenTag.isSuffixOf s then
    s.take (s.length - hodenTag.length) ++ processedTag
  else s

/-- The filesystem the batch reads from: contents of each path as parsed
CSV rows, or `none` when reading raises. -/
def FileSys : Type := List Char → Option (List (List Cell))

/-- What processing one file produced on success. -/
structure FileResult where
  outPath : List Char
  outRows : List (List Cell)
  table : List ProcessedRow
deriving DecidableEq, Repr

/-- Outcome of the loop body (lines 72-134) for one file: silently
filtered out by the target-pressure test (lines 77-78), skipped with a
resistance warning (lines 85-87), skipped with a pressure warning
(lines 88-90), skipped by the catch-all except (lines 133-134) with the
exception message, or processed. -/
inductive Outcome
  | filtered
  | warnRes
  | warnPres
  | failed : List Char → Outcome
  | ok : FileResult → Outcome
deriving DecidableEq, Repr

/-- Error message models for the exceptions the try block can raise:
an unreadable file, `pd.read_csv` on an empty file (EmptyDataError),
and a missing voltage column (KeyError when the frame has fewer than
six columns). -/
def readErrMsg : List Char := "read failed".toList

/-- Message model for `pd.read_csv` raising on an empty file. -/
def emptyErrMsg : List Char := "no columns to parse from file".toList

/-- Message model for the KeyError when column 1 or 5 is absent. -/
def keyErrMsg : List Char := "missing voltage column".toList

/-- Lines 83-134 after the pressure filter: extract the resistance and
check both metadata fields, then run the try block — read, clean,
compute, and assemble the per-file write and the aggregation rows. -/
def afterFilter (fs : FileSys) (path : List Char) (pres? : Option Nat) : Outcome :=
  match parse_value_from_filename path Pat.ohm kohmMap with
  | none => Outcome.warnRes
  | some resistance_ch2 =>
    match pres? with
    | none => Outcome.warnPres
    | some pressure =>
      match fs path with
      | none => Outcome.failed readErrMsg
      | some content =>
        if content.isEmpty then Outcome.failed emptyErrMsg
        else if tableWidth content < 6 then Outcome.failed keyErrMsg
        else
          let cleaned := cleanTable content
          Outcome.ok
            { outPath := pyReplace hodenTag processedTag path
            , outRows := cleaned.map (fun r => r ++ [Cell.num (rowCurrent resistance_ch2 r)])
            , table := cleaned.map (mkProcessed resistance_ch2 pressure) }

/-- The full loop body for one file (lines 72-134): extract the pressure
(line 74); when a target pressure is configured and the extracted value
differs from it — including the case where extraction FAILED, since
`None != target` is true — skip silently (lines 77-78); otherwise
continue with `afterFilter`. -/
def processPath (fs : FileSys) (target : Option Nat) (path : List Char) : Outcome :=
  let pres? := parse_value_from_filename path Pat.pa []
  match target with
  | some t => if pres? = some t then afterFilter fs path pres? else Outcome.filtered
  | none => afterFilter fs path pres?

/-- Console warnings and error diagnostics emitted by the loop. -/
inductive LogMsg
  | warnRes : List Char → LogMsg
  | warnPres : List Char → LogMsg
  | fileError : List Char → List Char → LogMsg
deriving DecidableEq, Repr

/-- The per-file loop (lines 72-134) over the discovered paths: each
file contributes its result to `all_processed_data` when it succeeds,
and a warning or error line when it is skipped; no outcome stops the
iteration. -/
def runBatch (fs : FileSys) (target : Option Nat) :
    List (List Char) → List FileResult × List LogMsg
  | [] => ([], [])
  | p :: ps =>
    let rest := runBatch fs target ps
    match processPath fs target p with
    | Outcome.ok r => (r :: rest.1, rest.2)
    | Outcome.filtered => rest
    | Outcome.warnRes => (rest.1, LogMsg.warnRes p :: rest.2)
    | Outcome.warnPres => (rest.1, LogMsg.warnPres p :: rest.2)
    | Outcome.failed m => (rest.1, LogMsg.fileError p m :: rest.2)

/-- Success projection of an outcome. -/
def Outcome.ok? : Outcome → Option FileResult
  | Outcome.ok r => some r
  | _ => none

/-- Output-path projection of an outcome. -/
def Outcome.outPath? : Outcome → Option (List Char)
  | Outcome.ok r => some r.outPath
  | _ => none

/-- Output-rows projection of an outcome. -/
def Outcome.outRows? : Outcome → Option (List (List Cell))
  | Outcome.ok r => some r.outRows
  | _ => none


/-! ### Helper lemmas -/

/-- Demonstration input row used by witnesses: a well-formed log line
(integer voltage strings keep all witness arithmetic in the fragment the
kernel evaluates). -/
def demoRawRow : List Cell :=
  [Cell.str "00:00:01".toList, Cell.str "1".toList, Cell.str "a".toList,
   Cell.str "b".toList, Cell.str "c".toList, Cell.str "2".toList]

/-- Demonstration table used by witnesses: one data line, one footer. -/
def demoRawRows : List (List Cell) := [demoRawRow, [Cell.str "footer".toList]]

/-- The cleaned form of `demoRawRow`. -/
def demoCleanRow : List Cell :=
  [Cell.str "00:00:01".toList, Cell.num 1, Cell.str "a".toList,
   Cell.str "b".toList, Cell.str "c".toList, Cell.num 2]

/-- Demonstration aggregation table used by witnesses: two pressure
groups, one with two rows. -/
def demoAggTable : List ProcessedRow :=
  [{ v1 := 1, cur := 2, res := 1000, pres := 300 },
   { v1 := 3, cur := 4, res := 2000, pres := 100 },
   { v1 := 5, cur := 6, res := 1000, pres := 300 }]

/-- Demonstration filesystem used by witnesses: one readable file. -/
def demoFS : FileSys :=
  fun p => if p = "2kohm_100Pa_hoden.csv".toList then some demoRawRows else none

/-- What processing the one readable file of `demoFS` produces. -/
def demoOkResult : FileResult :=
  { outPath := pyReplace hodenTag processedTag "2kohm_100Pa_hoden.csv".toList
  , outRows := (cleanTable demoRawRows).map
      (fun row => row ++ [Cell.num (rowCurrent 2000 row)])
  , table := (cleanTable demoRawRows).map (mkProcessed 2000 100) }

theorem getCell_set_ne {r : List Cell} {i j : Nat} (h : i ≠ j) (c : Cell) :
    getCell (r.set i c) j = getCell r j := by
  simp [getCell, List.get?_eq_getElem?, List.getElem?_set_ne h]

theorem getCell_convRow_ne {r : List Cell} {j : Nat} (h1 : j ≠ 1) (h5 : j ≠ 5) :
    getCell (convRow r) j = getCell r j := by
  unfold convRow
  rw [getCell_set_ne (Ne.symm h5), getCell_set_ne (Ne.symm h1)]

theorem getCell_convRow_one (r : List Cell) :
    getCell (convRow r) 1 = convCell (getCell r 1) ∨ getCell r 1 = Cell.nan := by
  unfold convRow
  rw [getCell_set_ne (by omega)]
  rcases Nat.lt_or_ge 1 r.length with h | h
  · left
    simp [getCell, List.get?_eq_getElem?, List.getElem?_set, h]
  · right
    simp [getCell, List.get?_eq_getElem?, List.getElem?_eq_none h]

theorem mem_cleanTable {rows : List (List Cell)} {r : List Cell}
    (hr : r ∈ cleanTable rows) :
    ∃ orig ∈ rows,
      r = convRow (padTo (tableWidth rows) orig) ∧
      cellIsTime (getCell (padTo (tableWidth rows) orig) 0) = true ∧
      (getCell r 1).isNum = true ∧ (getCell r 5).isNum = true := by
  unfold cleanTable at hr
  rw [List.mem_filter] at hr
  obtain ⟨hmem, hnum⟩ := hr
  rw [List.mem_map] at hmem
  obtain ⟨q, hq, rfl⟩ := hmem
  rw [List.mem_filter] at hq
  obtain ⟨hq, htime⟩ := hq
  rw [List.mem_map] at hq
  obtain ⟨orig, horig, rfl⟩ := hq
  rw [Bool.and_eq_true] at hnum
  exact ⟨orig, horig, rfl, htime, hnum.1, hnum.2⟩

/-! ### Claim C1 -/

/-- C1: for every cleaned row and every extracted resistance `R`, the
per-file output appends `final_current = voltage_ch2 / R -
voltage_ch1 / 10000000`, with the 10 MOhm divisor a fixed constant of
`finalCurrent` (source line 113), not a per-file input; in particular
`finalCurrent 1000 1 2 = 0.0019999`. -/
theorem spec_C1 : ∀ (R : Nat) (rows : List (List Cell)),
    outputRows R rows =
      (cleanTable rows).map (fun r =>
        r ++ [Cell.num ((getCell r 5).numVal / (R : ℚ) -
               (getCell r 1).numVal / 10000000)]) ∧
    finalCurrent 1000 1 2 = (19999 : ℚ) / 10000000 := by
  intro R rows
  constructor
  · rfl
  · norm_num [finalCurrent]

/-! ### Claim C2 -/

/-- C2: every row surviving the cleaning step has a first field of the
timestamp shape `dd:dd:dd` and numeric (finite) values in both voltage
columns 1 and 5; rows failing either check are dropped. -/
theorem spec_C2 : ∀ (rows : List (List Cell)) (r : List Cell),
    r ∈ cleanTable rows →
    cellIsTime (getCell r 0) = true ∧
    (getCell r 1).isNum = true ∧ (getCell r 5).isNum = true := by
  intro rows r hr
  obtain ⟨orig, _, rfl, htime, h1, h5⟩ := mem_cleanTable hr
  refine ⟨?_, h1, h5⟩
  rw [getCell_convRow_ne (by omega) (by omega)]
  exact htime

/-- C2 witness: the demonstration table keeps exactly its one
well-formed row, and the theorem applies to it. -/
theorem spec_C2_witness :
    demoCleanRow ∈ cleanTable demoRawRows ∧
    (cellIsTime (getCell demoCleanRow 0) = true ∧
     (getCell demoCleanRow 1).isNum = true ∧
     (getCell demoCleanRow 5).isNum = true) :=
  ⟨by decide, spec_C2 demoRawRows demoCleanRow (by decide)⟩

/-! ### Claim C5 -/

/-- C5 counterexample: one processed file whose cleaned table is empty
gives zero usable corrected rows, yet the aggregation and plot phase is
NOT aborted — the phase runs, writes no summary, and writes the plot
file (the emptiness test at source line 136 is on the list of per-file
tables, not on the row count). -/
theorem spec_C5_counterexample :
    ([[]] : List (List ProcessedRow)).flatten = ([] : List ProcessedRow) ∧
    aggregatePhase (some 300) ([[]] : List (List ProcessedRow)) =
      some { summaries := [], plotFile := plotName (some 300) } := by
  exact ⟨rfl, rfl⟩

/-- C5 amended: the aggregation and plot phase is aborted with no writes
exactly when the collected list of per-file tables is empty (no file
reached the collection step); a processed file contributing zero rows
still triggers the phase, which then writes no summary file but does
write the plot file. -/
theorem spec_C5 : ∀ (target : Option Nat) (tables : List (List ProcessedRow)),
    aggregatePhase target tables = none ↔ tables = [] := by
  intro target tables
  unfold aggregatePhase
  rcases tables with _ | ⟨t, ts⟩
  · simp
  · simp

/-! ### Batch structure lemmas -/

theorem runBatch_nil (fs : FileSys) (target : Option Nat) :
    runBatch fs target [] = ([], []) := rfl

theorem runBatch_cons (fs : FileSys) (target : Option Nat)
    (p : List Char) (ps : List (List Char)) :
    runBatch fs target (p :: ps) =
      match processPath fs target p with
      | Outcome.ok r => (r :: (runBatch fs target ps).1, (runBatch fs target ps).2)
      | Outcome.filtered => runBatch fs target ps
      | Outcome.warnRes =>
          ((runBatch fs target ps).1, LogMsg.warnRes p :: (runBatch fs target ps).2)
      | Outcome.warnPres =>
          ((runBatch fs target ps).1, LogMsg.warnPres p :: (runBatch fs target ps).2)
      | Outcome.failed m =>
          ((runBatch fs target ps).1, LogMsg.fileError p m :: (runBatch fs target ps).2) := by
  rw [runBatch]

theorem runBatch_append (fs : FileSys) (target : Option Nat)
    (xs ys : List (List Char)) :
    runBatch fs target (xs ++ ys) =
      ((runBatch fs target xs).1 ++ (runBatch fs target ys).1,
       (runBatch fs target xs).2 ++ (runBatch fs target ys).2) := by
  induction xs with
  | nil => simp [runBatch_nil]
  | cons p ps ih =>
    rw [List.cons_append, runBatch_cons, runBatch_cons]
    cases processPath fs target p <;> simp [ih]

/-! ### Claim C6 -/

/-- C6 counterexample: with the target-pressure filter set to 300 and a
file whose pressure cannot be parsed, the file is skipped by the silent
filter branch (source lines 77-78) and NO warning is logged, against the
claim that an unparseable pressure is always skipped with a warning. -/
theorem spec_C6_counterexample :
    parse_value_from_filename "5kohm_hoden.csv".toList Pat.pa [] = none ∧
    runBatch (fun _ => none) (some 300) ["5kohm_hoden.csv".toList] = ([], []) := by
  exact ⟨rfl, rfl⟩

/-- C6 amended: when no target-pressure filter is set, a file whose
resistance or pressure cannot be parsed is skipped with a logged warning
and the batch continues with the remaining files; when a target-pressure
filter is set, a file whose parsed pressure differs from the target —
including one whose pressure cannot be parsed at all — is skipped
silently by the filter with no warning, while a file whose pressure
equals the target but whose resistance cannot be parsed is still skipped
with a warning. -/
theorem spec_C6 : ∀ (fs : FileSys) (path : List Char)
    (pre post : List (List Char)),
    (parse_value_from_filename path Pat.ohm kohmMap = none →
      processPath fs none path = Outcome.warnRes ∧
      runBatch fs none (pre ++ path :: post) =
        ((runBatch fs none pre).1 ++ (runBatch fs none post).1,
         (runBatch fs none pre).2 ++
           LogMsg.warnRes path :: (runBatch fs none post).2)) ∧
    (parse_value_from_filename path Pat.ohm kohmMap ≠ none →
      parse_value_from_filename path Pat.pa [] = none →
      processPath fs none path = Outcome.warnPres ∧
      runBatch fs none (pre ++ path :: post) =
        ((runBatch fs none pre).1 ++ (runBatch fs none post).1,
         (runBatch fs none pre).2 ++
           LogMsg.warnPres path :: (runBatch fs none post).2)) ∧
    (∀ t : Nat, parse_value_from_filename path Pat.pa [] ≠ some t →
      processPath fs (some t) path = Outcome.filtered ∧
      runBatch fs (some t) (pre ++ path :: post) =
        ((runBatch fs (some t) pre).1 ++ (runBatch fs (some t) post).1,
         (runBatch fs (some t) pre).2 ++ (runBatch fs (some t) post).2)) ∧
    (∀ t : Nat, parse_value_from_filename path Pat.pa [] = some t →
      parse_value_from_filename path Pat.ohm kohmMap = none →
      processPath fs (some t) path = Outcome.warnRes) := by
  intro fs path pre post
  refine ⟨fun hres => ?_, fun hres hpa => ?_, fun t hne => ?_, fun t hpa hres => ?_⟩
  · have hp : processPath fs none path = Outcome.warnRes := by
      unfold processPath afterFilter
      rw [hres]
    refine ⟨hp, ?_⟩
    rw [runBatch_append, runBatch_cons, hp]
  · have hp : processPath fs none path = Outcome.warnPres := by
      unfold processPath afterFilter
      rw [hpa]
      cases hohm : parse_value_from_filename path Pat.ohm kohmMap with
      | none => exact absurd hohm hres
      | some r => rfl
    refine ⟨hp, ?_⟩
    rw [runBatch_append, runBatch_cons, hp]
  · have hp : processPath fs (some t) path = Outcome.filtered := by
      show (if parse_value_from_filename path Pat.pa [] = some t
            then afterFilter fs path (parse_value_from_filename path Pat.pa [])
            else Outcome.filtered) = Outcome.filtered
      rw [if_neg hne]
    refine ⟨hp, ?_⟩
    rw [runBatch_append, runBatch_cons, hp]
  · show (if parse_value_from_filename path Pat.pa [] = some t
          then afterFilter fs path (parse_value_from_filename path Pat.pa [])
          else Outcome.filtered) = Outcome.warnRes
    rw [hpa, if_pos rfl]
    unfold afterFilter
    rw [hres]

/-- C6 witness: a concrete no-filter batch logging a resistance warning,
a concrete no-filter batch logging a pressure warning, and a concrete
filtered batch with no log. -/
theorem spec_C6_witness :
    (parse_value_from_filename "nores_300Pa_hoden.csv".toList Pat.ohm kohmMap = none ∧
      processPath (fun _ => none) none "nores_300Pa_hoden.csv".toList = Outcome.warnRes) ∧
    (parse_value_from_filename "5kohm_hoden.csv".toList Pat.ohm kohmMap ≠ none ∧
      parse_value_from_filename "5kohm_hoden.csv".toList Pat.pa [] = none ∧
      processPath (fun _ => none) none "5kohm_hoden.csv".toList = Outcome.warnPres) ∧
    (parse_value_from_filename "5kohm_hoden.csv".toList Pat.pa [] ≠ some 300 ∧
      processPath (fun _ => none) (some 300) "5kohm_hoden.csv".toList = Outcome.filtered) :=
  ⟨⟨by decide,
    ((spec_C6 (fun _ => none) "nores_300Pa_hoden.csv".toList [] []).1 (by decide)).1⟩,
   ⟨by decide, by decide,
    (((spec_C6 (fun _ => none) "5kohm_hoden.csv".toList [] []).2.1 (by decide) (by decide))).1⟩,
   ⟨by decide,
    (((spec_C6 (fun _ => none) "5kohm_hoden.csv".toList [] []).2.2.1 300 (by decide))).1⟩⟩

/-! ### Claim C8 -/

/-- C8: the loop result holds exactly the successfully processed files
in order (a per-file failure removes only that file), and a file on
which the try block raises contributes one error diagnostic naming its
path and the exception message while the batch result is exactly that of
the other files — no per-file failure aborts the batch. -/
theorem spec_C8 : ∀ (fs : FileSys) (target : Option Nat),
    (∀ paths : List (List Char),
      (runBatch fs target paths).1 =
        paths.filterMap (fun p => (processPath fs target p).ok?)) ∧
    (∀ (pre post : List (List Char)) (p msg : List Char),
      processPath fs target p = Outcome.failed msg →
      runBatch fs target (pre ++ p :: post) =
        ((runBatch fs target pre).1 ++ (runBatch fs target post).1,
         (runBatch fs target pre).2 ++
           LogMsg.fileError p msg :: (runBatch fs target post).2)) := by
  intro fs target
  constructor
  · intro paths
    induction paths with
    | nil => rfl
    | cons p ps ih =>
      rw [runBatch_cons, List.filterMap_cons]
      cases processPath fs target p <;> simp [Outcome.ok?, ih]
  · intro pre post p msg hp
    rw [runBatch_append, runBatch_cons, hp]

/-- C8 witness: a concrete batch where the first file fails to read and
the second is still processed, with the error diagnostic recorded. -/
theorem spec_C8_witness :
    processPath (fun _ => none) none "2kohm_100Pa_hoden.csv".toList =
      Outcome.failed readErrMsg ∧
    runBatch (fun _ => none) none
        ([] ++ "2kohm_100Pa_hoden.csv".toList :: ["3kohm_100Pa_hoden.csv".toList]) =
      ((runBatch (fun _ => none) none []).1 ++
         (runBatch (fun _ => none) none ["3kohm_100Pa_hoden.csv".toList]).1,
       (runBatch (fun _ => none) none []).2 ++
         LogMsg.fileError "2kohm_100Pa_hoden.csv".toList readErrMsg ::
           (runBatch (fun _ => none) none ["3kohm_100Pa_hoden.csv".toList]).2) :=
  ⟨by decide,
   (spec_C8 (fun _ => none) none).2 [] ["3kohm_100Pa_hoden.csv".toList]
     "2kohm_100Pa_hoden.csv".toList readErrMsg (by decide)⟩

/-! ### Regex model lemmas -/

theorem takeWhile_append_cons {α : Type} {p : α → Bool} {ds tail : List α}
    {c : α} (hds : ∀ x ∈ ds, p x = true) (hc : p c = false) :
    (ds ++ c :: tail).takeWhile p = ds := by
  induction ds with
  | nil => simp [List.takeWhile_cons, hc]
  | cons d ds ih =>
    have hd : p d = true := hds d (List.mem_cons_self d ds)
    simp only [List.cons_append, List.takeWhile_cons, hd, if_true]
    rw [ih (fun x hx => hds x (List.mem_cons_of_mem d hx))]

theorem matchOhmAt_at_match {ds s : List Char} {u : Char}
    (hne : ds ≠ []) (hds : ∀ x ∈ ds, isDigitC x = true)
    (hu : u = 'k' ∨ u = 'M') :
    matchOhmAt (ds ++ u :: 'o' :: 'h' :: 'm' :: s) = some (ds, u) := by
  have hnd : isDigitC u = false := by rcases hu with rfl | rfl <;> rfl
  simp only [matchOhmAt]
  rw [takeWhile_append_cons hds hnd, List.drop_left]
  simp only [List.isEmpty_iff]
  rw [if_neg hne]
  simp [hu]

theorem searchOhm_cons_match {s : List Char} {r : List Char × Char}
    (hs : s ≠ []) (h : matchOhmAt s = some r) : searchOhm s = some r := by
  cases s with
  | nil => exact absurd rfl hs
  | cons c cs => rw [searchOhm, h]

theorem searchOhm_append_none {rest : List Char} : ∀ {p : List Char},
    (∀ n < p.length, matchOhmAt (p.drop n ++ rest) = none) →
    searchOhm (p ++ rest) = searchOhm rest := by
  intro p
  induction p with
  | nil => intro _; rfl
  | cons c cs ih =>
    intro h
    have h0 : matchOhmAt (c :: (cs ++ rest)) = none := by
      have h' := h 0 (Nat.succ_pos _)
      simpa using h'
    rw [List.cons_append, searchOhm, h0]
    exact ih (fun n hn => by simpa using h (n + 1) (by simpa using hn))

theorem searchOhm_form {p ds s : List Char} {u : Char}
    (hp : ∀ n < p.length,
      matchOhmAt (p.drop n ++ (ds ++ u :: 'o' :: 'h' :: 'm' :: s)) = none)
    (hne : ds ≠ []) (hds : ∀ x ∈ ds, isDigitC x = true)
    (hu : u = 'k' ∨ u = 'M') :
    searchOhm (p ++ (ds ++ u :: 'o' :: 'h' :: 'm' :: s)) = some (ds, u) := by
  rw [searchOhm_append_none hp]
  exact searchOhm_cons_match (by simp [hne]) (matchOhmAt_at_match hne hds hu)

theorem basename_eq_self {s : List Char} (h : ∀ c ∈ s, c ≠ '/') :
    basename s = s := by
  unfold basename
  rw [List.takeWhile_eq_self_iff.mpr ?_, List.reverse_reverse]
  intro x hx
  rw [List.mem_reverse] at hx
  simp [h x hx]

theorem digit_ne_slash {c : Char} (h : isDigitC c = true) : c ≠ '/' := by
  intro he
  subst he
  exact absurd h (by decide)

theorem parse_ohm_eq (f : List Char) (m : List (Char × Nat)) :
    parse_value_from_filename f Pat.ohm m =
      match searchOhm (basename f) with
      | none => none
      | some (ds, u) =>
        match List.lookup u m with
        | some mult => some (digitsToNat ds * mult)
        | none => some (digitsToNat ds) := by
  cases h : searchOhm (basename f) with
  | none => simp [parse_value_from_filename, reSearch, h]
  | some r =>
    obtain ⟨ds, u⟩ := r
    simp [parse_value_from_filename, reSearch, h]

/-! ### Claim C3 -/

/-- C3: for a basename carrying a digit run followed by `kohm` whose
earlier positions start no ohm-pattern match, extraction returns the
digit value times 1000; with `Mohm` it returns the value times 1000000;
when the pattern matches but the second capture group is not a key of
the supplied multiplier mapping (here: the empty mapping), the bare
captured integer is returned; and when the pattern does not match the
basename, extraction returns `none` — absent, not an error. -/
theorem spec_C3 : ∀ (p ds s : List Char),
    (∀ c ∈ p, c ≠ '/') → (∀ c ∈ s, c ≠ '/') →
    ds ≠ [] → (∀ x ∈ ds, isDigitC x = true) →
    ((∀ n < p.length,
        matchOhmAt (p.drop n ++ (ds ++ 'k' :: 'o' :: 'h' :: 'm' :: s)) = none) →
      parse_value_from_filename (p ++ (ds ++ 'k' :: 'o' :: 'h' :: 'm' :: s))
          Pat.ohm kohmMap = some (digitsToNat ds * 1000) ∧
      parse_value_from_filename (p ++ (ds ++ 'k' :: 'o' :: 'h' :: 'm' :: s))
          Pat.ohm [] = some (digitsToNat ds)) ∧
    ((∀ n < p.length,
        matchOhmAt (p.drop n ++ (ds ++ 'M' :: 'o' :: 'h' :: 'm' :: s)) = none) →
      parse_value_from_filename (p ++ (ds ++ 'M' :: 'o' :: 'h' :: 'm' :: s))
          Pat.ohm kohmMap = some (digitsToNat ds * 1000000)) ∧
    (∀ f : List Char, searchOhm (basename f) = none →
      parse_value_from_filename f Pat.ohm kohmMap = none) := by
  intro p ds s hp hs hne hds
  have hslash : ∀ u : Char, u = 'k' ∨ u = 'M' →
      ∀ c ∈ p ++ (ds ++ u :: 'o' :: 'h' :: 'm' :: s), c ≠ '/' := by
    intro u hu c hc
    rcases List.mem_append.mp hc with h1 | h2
    · exact hp c h1
    rcases List.mem_append.mp h2 with h3 | h4
    · exact digit_ne_slash (hds c h3)
    simp only [List.mem_cons] at h4
    rcases h4 with rfl | rfl | rfl | rfl | h5
    · rcases hu with rfl | rfl <;> decide
    · decide
    · decide
    · decide
    · exact hs c h5
  refine ⟨fun hm => ?_, fun hm => ?_, fun f hf => ?_⟩
  · have hb := basename_eq_self (hslash 'k' (Or.inl rfl))
    have hsearch := searchOhm_form hm hne hds (Or.inl rfl)
    constructor
    · rw [parse_ohm_eq, hb]
      simp [hsearch, kohmMap]
    · rw [parse_ohm_eq, hb]
      simp [hsearch, List.lookup]
  · have hb := basename_eq_self (hslash 'M' (Or.inr rfl))
    have hsearch := searchOhm_form hm hne hds (Or.inr rfl)
    rw [parse_ohm_eq, hb]
    simp [hsearch, kohmMap, List.lookup]
  · rw [parse_ohm_eq, hf]

/-- C3 witness: the theorem applied at a concrete prefix, digit run and
suffix, plus a concrete non-matching filename. -/
theorem spec_C3_witness :
    parse_value_from_filename
        ("exp_".toList ++ (['3', '5'] ++ 'k' :: 'o' :: 'h' :: 'm' :: "_300Pa_hoden.csv".toList))
        Pat.ohm kohmMap = some (digitsToNat ['3', '5'] * 1000) ∧
    parse_value_from_filename
        ("exp_".toList ++ (['3', '5'] ++ 'M' :: 'o' :: 'h' :: 'm' :: "_300Pa_hoden.csv".toList))
        Pat.ohm kohmMap = some (digitsToNat ['3', '5'] * 1000000) ∧
    parse_value_from_filename
        ("exp_".toList ++ (['3', '5'] ++ 'k' :: 'o' :: 'h' :: 'm' :: "_300Pa_hoden.csv".toList))
        Pat.ohm [] = some (digitsToNat ['3', '5']) ∧
    parse_value_from_filename "data_hoden.csv".toList Pat.ohm kohmMap = none := by
  have h := spec_C3 "exp_".toList ['3', '5'] "_300Pa_hoden.csv".toList
    (by decide) (by decide) (by decide) (by decide)
  exact ⟨(h.1 (by decide)).1, h.2.1 (by decide), (h.1 (by decide)).2,
    h.2.2 "data_hoden.csv".toList (by decide)⟩

/-! ### Claim C7 -/

theorem matchOhmAt_inv {s ds : List Char} {u : Char}
    (h : matchOhmAt s = some (ds, u)) :
    ds ≠ [] ∧ (∀ x ∈ ds, isDigitC x = true) ∧ (u = 'k' ∨ u = 'M') := by
  simp only [matchOhmAt] at h
  by_cases he : (s.takeWhile isDigitC).isEmpty
  · rw [if_pos he] at h
    exact absurd h (by simp)
  · rw [if_neg he] at h
    cases hdrop : s.drop (s.takeWhile isDigitC).length with
    | nil =>
      rw [hdrop] at h
      exact absurd h (by simp)
    | cons c rest =>
      rw [hdrop] at h
      have h' : (if (c = 'k' ∨ c = 'M') ∧ List.take 3 rest = ['o', 'h', 'm']
          then some (List.takeWhile isDigitC s, c) else none) = some (ds, u) := h
      by_cases hc : (c = 'k' ∨ c = 'M') ∧ rest.take 3 = ['o', 'h', 'm']
      · rw [if_pos hc] at h'
        have hpair : (s.takeWhile isDigitC, c) = (ds, u) := by
          injection h'
        obtain ⟨h1, h2⟩ := Prod.mk.injEq .. |>.mp hpair
        subst h1
        subst h2
        refine ⟨?_, fun x hx => List.mem_takeWhile_imp hx, hc.1⟩
        intro hnil
        rw [hnil] at he
        exact he rfl
      · rw [if_neg hc] at h'
        exact absurd h' (by simp)

theorem searchOhm_inv : ∀ {s ds : List Char} {u : Char},
    searchOhm s = some (ds, u) →
    ds ≠ [] ∧ (∀ x ∈ ds, isDigitC x = true) ∧ (u = 'k' ∨ u = 'M') := by
  intro s
  induction s with
  | nil =>
    intro ds u h
    exact absurd h (by simp [searchOhm])
  | cons c cs ih =>
    intro ds u h
    rw [searchOhm] at h
    cases hm : matchOhmAt (c :: cs) with
    | some r =>
      rw [hm] at h
      have : r = (ds, u) := by injection h
      exact matchOhmAt_inv (this ▸ hm)
    | none =>
      rw [hm] at h
      exact ih h

theorem digitsToNat_foldl_eq_zero : ∀ (ds : List Char) (a : Nat),
    (∀ x ∈ ds, isDigitC x = true) →
    (ds.foldl (fun a c => a * 10 + (c.toNat - 48)) a = 0 ↔
      a = 0 ∧ ∀ x ∈ ds, x.toNat = 48) := by
  intro ds
  induction ds with
  | nil =>
    intro a _
    simp
  | cons d ds ih =>
    intro a hds
    have hd : isDigitC d = true := hds d (List.mem_cons_self d ds)
    have hd48 : 48 ≤ d.toNat ∧ d.toNat ≤ 57 := by
      simpa [isDigitC] using hd
    rw [List.foldl_cons, ih _ (fun x hx => hds x (List.mem_cons_of_mem d hx))]
    constructor
    · rintro ⟨h1, h2⟩
      have ha : a = 0 ∧ d.toNat - 48 = 0 := by omega
      refine ⟨ha.1, fun x hx => ?_⟩
      rcases List.mem_cons.mp hx with rfl | hx2
      · omega
      · exact h2 x hx2
    · rintro ⟨rfl, h2⟩
      have hdz : d.toNat = 48 := h2 d (List.mem_cons_self d ds)
      refine ⟨by omega, fun x hx => h2 x (List.mem_cons_of_mem d hx)⟩

theorem digitsToNat_pos_iff {ds : List Char}
    (hds : ∀ x ∈ ds, isDigitC x = true) :
    0 < digitsToNat ds ↔ ∃ x ∈ ds, x.toNat ≠ 48 := by
  have hz := digitsToNat_foldl_eq_zero ds 0 hds
  rw [Nat.pos_iff_ne_zero]
  constructor
  · intro hne0
    by_contra hno
    push_neg at hno
    exact hne0 (hz.mpr ⟨rfl, hno⟩)
  · rintro ⟨x, hx, hxne⟩ h0
    exact hxne ((hz.mp h0).2 x hx)

/-- C7 counterexample: the filename `0kohm_300Pa_hoden.csv` matches the
resistance pattern and extraction succeeds with the value 0, which is
not strictly positive — so the extracted resistance can be zero and the
division by it at source line 112 can be a division by zero. -/
theorem spec_C7_counterexample :
    parse_value_from_filename "0kohm_300Pa_hoden.csv".toList Pat.ohm kohmMap =
      some 0 ∧ ¬ 0 < (0 : Nat) :=
  ⟨rfl, by decide⟩

/-- C7 amended: a successful extraction returns the captured digit value
times a strictly positive unit multiplier; the result is strictly
positive if and only if the captured digit run contains a character
other than `0` (character code 48), so an all-zero digit run such as in
`0kohm_...` yields resistance 0 and the division-by-zero guard claimed
by the spec does not hold unconditionally. -/
theorem spec_C7 : ∀ (f ds : List Char) (u : Char),
    searchOhm (basename f) = some (ds, u) →
    ∃ m : Nat, List.lookup u kohmMap = some m ∧ 0 < m ∧
      parse_value_from_filename f Pat.ohm kohmMap =
        some (digitsToNat ds * m) ∧
      (0 < digitsToNat ds * m ↔ ∃ x ∈ ds, x.toNat ≠ 48) := by
  intro f ds u h
  obtain ⟨hne, hds, hu⟩ := searchOhm_inv h
  have hm : ∃ m : Nat, List.lookup u kohmMap = some m ∧ 0 < m := by
    rcases hu with rfl | rfl
    · exact ⟨1000, rfl, by decide⟩
    · exact ⟨1000000, rfl, by decide⟩
  obtain ⟨m, hlk, hmpos⟩ := hm
  refine ⟨m, hlk, hmpos, ?_, ?_⟩
  · rw [parse_ohm_eq]
    simp [h, hlk]
  · have hsplit : 0 < digitsToNat ds * m ↔ 0 < digitsToNat ds := by
      constructor
      · intro h'
        rcases Nat.eq_zero_or_pos (digitsToNat ds) with h0 | h1
        · rw [h0, Nat.zero_mul] at h'
          exact absurd h' (by decide)
        · exact h1
      · intro h'
        exact Nat.mul_pos h' hmpos
    rw [hsplit]
    exact digitsToNat_pos_iff hds

/-- C7 witness: the theorem applied at the concrete filename
`5kohm_300Pa_hoden.csv`, whose captured digit run is `5`. -/
theorem spec_C7_witness :
    searchOhm (basename "5kohm_300Pa_hoden.csv".toList) = some (['5'], 'k') ∧
    (∃ m : Nat, List.lookup 'k' kohmMap = some m ∧ 0 < m ∧
      parse_value_from_filename "5kohm_300Pa_hoden.csv".toList Pat.ohm kohmMap =
        some (digitsToNat ['5'] * m) ∧
      (0 < digitsToNat ['5'] * m ↔ ∃ x ∈ ['5'], x.toNat ≠ 48)) :=
  ⟨by decide, spec_C7 "5kohm_300Pa_hoden.csv".toList ['5'] 'k' (by decide)⟩

/-! ### Claim C4 -/

theorem count_groupRows (a : ProcessedRow) (p : Nat) (t : List ProcessedRow) :
    List.count a (groupRows p t) = if a.pres = p then List.count a t else 0 := by
  unfold groupRows
  by_cases hp : a.pres = p
  · rw [if_pos hp]
    exact List.count_filter (by simp [hp])
  · rw [if_neg hp, List.count_eq_zero]
    intro hmem
    rw [List.mem_filter] at hmem
    exact hp (by simpa using hmem.2)

theorem sum_count_single {ks : List Nat} (hnd : ks.Nodup) (v c : Nat) :
    (ks.map (fun p => if v = p then c else 0)).sum = if v ∈ ks then c else 0 := by
  induction ks with
  | nil => simp
  | cons k ks ih =>
    rw [List.nodup_cons] at hnd
    rw [List.map_cons, List.sum_cons, ih hnd.2]
    by_cases hv : v = k
    · subst hv
      simp [hnd.1]
    · simp [hv, List.mem_cons]

theorem bind_groups_perm {t : List ProcessedRow} {ks : List Nat}
    (hnd : ks.Nodup) (hmem : ∀ r ∈ t, r.pres ∈ ks) :
    (ks.flatMap (fun p => groupRows p t)).Perm t := by
  rw [List.perm_iff_count]
  intro a
  rw [List.count_flatMap]
  have hmap : List.map (List.count a ∘ fun p => groupRows p t) ks =
      List.map (fun p => if a.pres = p then List.count a t else 0) ks := by
    apply List.map_congr_left
    intro p _
    exact count_groupRows a p t
  rw [hmap, sum_count_single hnd]
  by_cases hat : a ∈ t
  · rw [if_pos (hmem a hat)]
  · rw [List.count_eq_zero.mpr hat]
    simp

/-- C4: the group keys of the aggregation are exactly the distinct
pressure values of the concatenated table; the concatenation of the
per-pressure groups is a permutation of the full corrected dataset (no
row lost, none duplicated); each summary file holds the two-column
projection of its group; and a successful aggregation phase writes
exactly one summary per group key. -/
theorem spec_C4 : ∀ t : List ProcessedRow,
    (∀ p : Nat, p ∈ pressureKeys t ↔ ∃ r ∈ t, r.pres = p) ∧
    ((pressureKeys t).flatMap (fun p => groupRows p t)).Perm t ∧
    (∀ p : Nat, summaryTable p t = (groupRows p t).map (fun r => (r.v1, r.cur))) ∧
    (∀ (target : Option Nat) (tables : List (List ProcessedRow))
        (res : PhaseResult),
      aggregatePhase target tables = some res →
      res.summaries = (pressureKeys tables.flatten).map
        (fun p => (p, summaryTable p tables.flatten))) := by
  intro t
  have hperm : (pressureKeys t).Perm (t.map ProcessedRow.pres).dedup :=
    List.perm_insertionSort _ _
  have hnd : (pressureKeys t).Nodup :=
    (List.Perm.nodup_iff hperm).mpr (List.nodup_dedup _)
  have hmem : ∀ p : Nat,
      p ∈ pressureKeys t ↔ p ∈ (t.map ProcessedRow.pres).dedup :=
    fun p => hperm.mem_iff
  refine ⟨?_, ?_, fun p => rfl, ?_⟩
  · intro p
    rw [hmem, List.mem_dedup, List.mem_map]
  · apply bind_groups_perm hnd
    intro r hr
    rw [hmem, List.mem_dedup, List.mem_map]
    exact ⟨r, hr, rfl⟩
  · intro target tables res hres
    unfold aggregatePhase at hres
    by_cases hemp : tables.isEmpty
    · rw [if_pos hemp] at hres
      exact absurd hres (by simp)
    · rw [if_neg hemp] at hres
      have h' := (Option.some.injEq .. |>.mp hres)
      rw [← h']

/-- C4 witness: a concrete aggregation run over two pressure groups,
with the final conjunct of the claim theorem applied to it. -/
theorem spec_C4_witness :
    aggregatePhase none [demoAggTable] =
      some { summaries := [(100, [((3 : ℚ), (4 : ℚ))]), (300, [(1, 2), (5, 6)])],
             plotFile := plotName none } ∧
    ({ summaries := [(100, [((3 : ℚ), (4 : ℚ))]), (300, [(1, 2), (5, 6)])],
       plotFile := plotName none } : PhaseResult).summaries =
      (pressureKeys ([demoAggTable] : List (List ProcessedRow)).flatten).map
        (fun p => (p, summaryTable p ([demoAggTable] : List (List ProcessedRow)).flatten)) :=
  ⟨by decide,
   (spec_C4 demoAggTable).2.2.2 none [demoAggTable]
     { summaries := [(100, [((3 : ℚ), (4 : ℚ))]), (300, [(1, 2), (5, 6)])],
       plotFile := plotName none } (by decide)⟩

/-! ### Claim C9 -/

theorem pyReplaceF_single {pat rep : List Char} (hpat : pat ≠ []) :
    ∀ (stem : List Char) (fuel : Nat), (stem ++ pat).length ≤ fuel →
      (∀ n < stem.length, pat.isPrefixOf ((stem ++ pat).drop n) = false) →
      pyReplaceF pat rep fuel (stem ++ pat) = stem ++ rep := by
  intro stem
  induction stem with
  | nil =>
    intro fuel hfuel _
    cases pat with
    | nil => exact absurd rfl hpat
    | cons c cs =>
      cases fuel with
      | zero => simp at hfuel
      | succ f =>
        simp only [List.nil_append, pyReplaceF]
        rw [if_pos ⟨hpat, List.isPrefixOf_iff_prefix.mpr (List.prefix_refl _)⟩]
        simp only [List.length_cons, Nat.add_sub_cancel, List.drop_length]
        cases f <;> simp [pyReplaceF]
  | cons c st ih =>
    intro fuel hfuel h
    cases fuel with
    | zero => simp at hfuel
    | succ f =>
      have h0 : pat.isPrefixOf (c :: (st ++ pat)) = false := by
        have h' := h 0 (Nat.succ_pos _)
        simpa using h'
      simp only [List.cons_append, pyReplaceF, List.append_eq]
      rw [if_neg (by simp [h0])]
      rw [ih f (by simpa using hfuel) (fun n hn => by simpa using h (n + 1) (by simpa using hn))]

theorem afterFilter_ok_inv {fs : FileSys} {path : List Char}
    {pres? : Option Nat} {r : FileResult}
    (h : afterFilter fs path pres? = Outcome.ok r) :
    ∃ (content : List (List Cell)) (R pres : Nat),
      fs path = some content ∧
      parse_value_from_filename path Pat.ohm kohmMap = some R ∧
      pres? = some pres ∧
      r = { outPath := pyReplace hodenTag processedTag path
          , outRows := (cleanTable content).map
              (fun row => row ++ [Cell.num (rowCurrent R row)])
          , table := (cleanTable content).map (mkProcessed R pres) } := by
  cases hres : parse_value_from_filename path Pat.ohm kohmMap with
  | none =>
    rw [afterFilter, hres] at h
    exact absurd h (by simp)
  | some R =>
    cases pres? with
    | none =>
      rw [afterFilter, hres] at h
      exact absurd h (by simp)
    | some pres =>
      cases hc : fs path with
      | none =>
        rw [afterFilter, hres] at h
        simp only [hc] at h
        exact absurd h (by simp)
      | some content =>
        rw [afterFilter, hres] at h
        simp only [hc] at h
        by_cases he : content.isEmpty
        · rw [if_pos he] at h
          exact absurd h (by simp)
        · rw [if_neg he] at h
          by_cases hw : tableWidth content < 6
          · rw [if_pos hw] at h
            exact absurd h (by simp)
          · rw [if_neg hw] at h
            have h' : Outcome.ok _ = Outcome.ok r := h
            injection h' with h''
            exact ⟨content, R, pres, rfl, rfl, rfl, h''.symm⟩

theorem processPath_ok_inv {fs : FileSys} {target : Option Nat}
    {path : List Char} {r : FileResult}
    (h : processPath fs target path = Outcome.ok r) :
    afterFilter fs path (parse_value_from_filename path Pat.pa []) =
      Outcome.ok r := by
  cases target with
  | none => exact h
  | some t =>
    have h' : (if parse_value_from_filename path Pat.pa [] = some t
        then afterFilter fs path (parse_value_from_filename path Pat.pa [])
        else Outcome.filtered) = Outcome.ok r := h
    by_cases hp : parse_value_from_filename path Pat.pa [] = some t
    · rw [if_pos hp] at h'
      exact h'
    · rw [if_neg hp] at h'
      exact absurd h' (by simp)

/-- C9 counterexample: a processed file whose name contains the
substring `_hoden.csv` twice.  The code (Python `str.replace`, source
line 120) rewrites BOTH occurrences, so the output path differs from the
fixed suffix substitution the claim describes. -/
theorem spec_C9_counterexample :
    (processPath
        (fun p => if p = "5kohm_300Pa_hoden.csv_hoden.csv".toList
          then some demoRawRows else none)
        none "5kohm_300Pa_hoden.csv_hoden.csv".toList).outPath? =
      some "5kohm_300Pa_processed.csv_processed.csv".toList ∧
    suffixSubstitute "5kohm_300Pa_hoden.csv_hoden.csv".toList =
      "5kohm_300Pa_hoden.csv_processed.csv".toList ∧
    "5kohm_300Pa_processed.csv_processed.csv".toList ≠
      "5kohm_300Pa_hoden.csv_processed.csv".toList := by
  refine ⟨by decide, by decide, by decide⟩

/-- C9 amended: the output path is the source path with EVERY occurrence
of `_hoden.csv` replaced by `_processed.csv` (Python replace-all); for a
path in which the tag occurs only as the final suffix — the normal case —
this equals the fixed suffix substitution; and the written table is
exactly the cleaned rows with the one `final_current_A` column appended
(and no header or index row, which the row list models by containing
data rows only). -/
theorem spec_C9 :
    (∀ stem : List Char,
      (∀ n < stem.length,
        hodenTag.isPrefixOf ((stem ++ hodenTag).drop n) = false) →
      pyReplace hodenTag processedTag (stem ++ hodenTag) =
        stem ++ processedTag) ∧
    (∀ (fs : FileSys) (target : Option Nat) (path : List Char)
        (r : FileResult),
      processPath fs target path = Outcome.ok r →
      r.outPath = pyReplace hodenTag processedTag path ∧
      ∃ (content : List (List Cell)) (R pres : Nat),
        fs path = some content ∧
        parse_value_from_filename path Pat.ohm kohmMap = some R ∧
        parse_value_from_filename path Pat.pa [] = some pres ∧
        r.outRows = (cleanTable content).map
          (fun row => row ++ [Cell.num (rowCurrent R row)]) ∧
        r.table = (cleanTable content).map (mkProcessed R pres)) := by
  constructor
  · intro stem hocc
    exact pyReplaceF_single (by decide) stem (stem ++ hodenTag).length
      (le_refl _) hocc
  · intro fs target path r h
    obtain ⟨content, R, pres, hc, hres, hpres, hr⟩ :=
      afterFilter_ok_inv (processPath_ok_inv h)
    subst hr
    exact ⟨rfl, content, R, pres, hc, hres, hpres, rfl, rfl⟩

/-- C9 witness: the replace-once lemma applied at the one-character stem
`a`, and the per-file conclusion applied at the concrete successful run
of `demoFS`. -/
theorem spec_C9_witness :
    pyReplace hodenTag processedTag ("a".toList ++ hodenTag) =
      "a".toList ++ processedTag ∧
    processPath demoFS none "2kohm_100Pa_hoden.csv".toList =
      Outcome.ok demoOkResult ∧
    demoOkResult.outPath =
      pyReplace hodenTag processedTag "2kohm_100Pa_hoden.csv".toList ∧
    (∃ (content : List (List Cell)) (R pres : Nat),
      demoFS "2kohm_100Pa_hoden.csv".toList = some content ∧
      parse_value_from_filename "2kohm_100Pa_hoden.csv".toList Pat.ohm kohmMap =
        some R ∧
      parse_value_from_filename "2kohm_100Pa_hoden.csv".toList Pat.pa [] =
        some pres ∧
      demoOkResult.outRows = (cleanTable content).map
        (fun row => row ++ [Cell.num (rowCurrent R row)]) ∧
      demoOkResult.table = (cleanTable content).map (mkProcessed R pres)) := by
  have hok : processPath demoFS none "2kohm_100Pa_hoden.csv".toList =
      Outcome.ok demoOkResult := rfl
  have happ := spec_C9.2 demoFS none "2kohm_100Pa_hoden.csv".toList
    demoOkResult hok
  exact ⟨spec_C9.1 "a".toList (by decide), hok, happ.1, happ.2⟩

/-! ### Claim C10 -/

theorem getCell_padTo_lt {w j : Nat} {r : List Cell} (h : j < r.length) :
    getCell (padTo w r) j = getCell r j := by
  unfold padTo getCell
  rw [List.get?_eq_getElem?, List.get?_eq_getElem?, List.getElem?_append_left h]

/-- C10: every row of the per-file output comes from one original raw
row; outside columns 1 and 5 every cell of the converted row equals the
corresponding cell of the (frame-padded) original row, and within the
original width the padded row equals the original — so only the two
voltage columns are converted and only the one appended
`final_current_A` cell is new. -/
theorem spec_C10 : ∀ (rows : List (List Cell)) (R : Nat) (out : List Cell),
    out ∈ outputRows R rows →
    ∃ orig ∈ rows,
      out = convRow (padTo (tableWidth rows) orig) ++
          [Cell.num (rowCurrent R (convRow (padTo (tableWidth rows) orig)))] ∧
      (∀ j : Nat, j ≠ 1 → j ≠ 5 →
        getCell (convRow (padTo (tableWidth rows) orig)) j =
          getCell (padTo (tableWidth rows) orig) j) ∧
      (∀ j : Nat, j < orig.length →
        getCell (padTo (tableWidth rows) orig) j = getCell orig j) := by
  intro rows R out hout
  unfold outputRows at hout
  rw [List.mem_map] at hout
  obtain ⟨r, hr, rfl⟩ := hout
  obtain ⟨orig, horig, rfl, _, _, _⟩ := mem_cleanTable hr
  refine ⟨orig, horig, rfl, ?_, ?_⟩
  · intro j h1 h5
    exact getCell_convRow_ne h1 h5
  · intro j hj
    exact getCell_padTo_lt hj

/-- C10 witness: the theorem applied to the one output row of the
demonstration table. -/
theorem spec_C10_witness :
    demoCleanRow ++ [Cell.num (rowCurrent 1000 demoCleanRow)] ∈
      outputRows 1000 demoRawRows ∧
    (∃ orig ∈ demoRawRows,
      demoCleanRow ++ [Cell.num (rowCurrent 1000 demoCleanRow)] =
        convRow (padTo (tableWidth demoRawRows) orig) ++
          [Cell.num (rowCurrent 1000 (convRow (padTo (tableWidth demoRawRows) orig)))] ∧
      (∀ j : Nat, j ≠ 1 → j ≠ 5 →
        getCell (convRow (padTo (tableWidth demoRawRows) orig)) j =
          getCell (padTo (tableWidth demoRawRows) orig) j) ∧
      (∀ j : Nat, j < orig.length →
        getCell (padTo (tableWidth demoRawRows) orig) j = getCell orig j)) := by
  have hmem : demoCleanRow ++ [Cell.num (rowCurrent 1000 demoCleanRow)] ∈
      outputRows 1000 demoRawRows := by
    have hout : outputRows 1000 demoRawRows =
        [demoCleanRow ++ [Cell.num (rowCurrent 1000 demoCleanRow)]] := rfl
    rw [hout]
    exact List.mem_singleton.mpr rfl
  exact ⟨hmem, spec_C10 demoRawRows 1000 _ hmem⟩
